import Mathlib

/-!
Verification of the spicy-sat-solver DPLL SAT solver.

The development shallowly embeds the Rust sources:
  * `src/formula.rs`        — `Literal`, `Clause`, `Assignment`, `Formula`,
                              `Formula::assign` (with its recursive unit-propagation
                              cascade) and `Formula::un_assign`;
  * `src/formula/solver.rs` — `Formula::solve`, `Formula::dpll`, `Formula::next_un_assigned`;
  * `src/formula/parser.rs` — `Formula::parse_dimacs` and `Formula::simplify`.

Rust panics (index out of bounds, `unwrap` on `None`, arithmetic underflow) are
modelled by `Option.none` results, and the recursive functions take an explicit
fuel argument, `none` also standing for fuel exhaustion; a run of the Rust code
that terminates normally corresponds to a `some` result for every large enough
fuel.
-/

namespace SpicySat

/-- `Literal` from src/formula.rs: a propositional variable id which may be negated. -/
structure Literal where
  id : Nat
  negated : Bool
deriving DecidableEq, Repr

/-- `impl Not for Literal` from src/formula.rs: flips `negated` only. -/
def Literal.lnot (l : Literal) : Literal := ⟨l.id, !l.negated⟩

/-- `Literal::from_var` from src/formula.rs: `id = |v| - 1`, `negated = v < 0`.
For `v = 0` the subtraction `|0| - 1` underflows `usize`; that panic is `none`. -/
def Literal.from_var (v : Int) : Option Literal :=
  if v = 0 then none else some ⟨v.natAbs - 1, decide (v < 0)⟩

/-- `Assignment` from src/formula.rs: each slot is `some negated` for an assigned
variable or `none` for an unassigned one. -/
structure Assignment where
  vals : List (Option Bool)
deriving DecidableEq, Repr

/-- `Assignment::assign`: store the literal's polarity.  The Rust code indexes the
vector (panicking out of bounds); every literal the solver passes here comes from a
clause or from `next_un_assigned`, whose ids are below `num_vars`, so `List.set`'s
out-of-range no-op is never exercised on reachable states. -/
def Assignment.assign (a : Assignment) (l : Literal) : Assignment :=
  ⟨a.vals.set l.id (some l.negated)⟩

/-- `Assignment::un_assign`: clear the slot. -/
def Assignment.un_assign (a : Assignment) (l : Literal) : Assignment :=
  ⟨a.vals.set l.id none⟩

/-- `Assignment::assigned`: the variable is assigned with exactly this polarity. -/
def Assignment.assigned (a : Assignment) (l : Literal) : Bool :=
  a.vals.getD l.id none == some l.negated

/-- `Clause` from src/formula.rs: a disjunction of literals. -/
structure Clause where
  lits : List Literal
deriving DecidableEq, Repr

/-- `Clause::solved`: some literal is satisfied by the assignment. -/
def Clause.solved (c : Clause) (a : Assignment) : Bool :=
  c.lits.any (fun l => a.assigned l)

/-- The literals `ClauseIter` (src/formula.rs) yields: those whose complement is not
assigned, i.e. the literals not falsified by the assignment. -/
def Clause.alive (c : Clause) (a : Assignment) : List Literal :=
  c.lits.filter (fun l => !(a.assigned l.lnot))

/-- `Clause::num_literals`: the count of the literals `ClauseIter` yields. -/
def Clause.num_literals (c : Clause) (a : Assignment) : Nat :=
  (c.alive a).length

/-- `Clause::get_unit_literal`: the literal of a syntactic one-literal clause. -/
def Clause.get_unit_literal (c : Clause) : Option Literal :=
  match c.lits with
  | [l] => some l
  | _ => none

/-- `Formula` from src/formula.rs.  `assign_history` is the stack of undo groups
with the most recent group at the head of the list; within a group the literals are
in assignment order. -/
structure Formula where
  clauses : List (Clause × Bool)
  assignment : Assignment
  clause_indices : List (List (Nat × Bool))
  assign_history : List (List Literal)
  remaining_clauses : Nat
  unsolvable : Bool
  next_literal_id : Nat
deriving DecidableEq, Repr

/-- `assign_history.last_mut().unwrap().push(lit)` from `Formula::assign`'s inner
function: append the literal to the most recent undo group (`none` models the
`unwrap` panic on an empty history). -/
def pushHist (h : List (List Literal)) (l : Literal) : Option (List (List Literal)) :=
  match h with
  | [] => none
  | g :: rest => some ((g ++ [l]) :: rest)

/-- A pending piece of work inside one top-level `Formula::assign` call: either a
(possibly cascaded) invocation of the recursive `inner` function on a literal, or
the remainder of `inner`'s loop over the reverse-index entries of a literal's
variable. -/
inductive AssignStep
  | inner (f : Formula) (lit : Literal)
  | entries (f : Formula) (lit : Literal) (es : List (Nat × Bool))

/-- The recursive `inner` function of `Formula::assign` (src/formula.rs lines 25-46)
together with its `for i in 0..formula.clause_indices[lit.id].len()` loop, as one
fuel-indexed step function (fuel is consumed at every step so that the definition is
structural and computes; `none` is fuel exhaustion or a panic).

`.inner f lit` applies the literal to the assignment, records it in the current
undo group, and starts the loop over the variable's reverse-index entries.

`.entries f lit es` processes the remaining entries `(clause_idx, negated)`: if the
assigned literal falsifies the clause's literal over this variable, the clause's
live literal count is recomputed — zero sets `unsolvable` and returns from `inner`,
one recursively assigns the single remaining literal and then continues the loop;
otherwise the clause's literal is now true and the clause is marked satisfied
(once), decrementing `remaining_clauses`.  Indexing `clauses[clause_idx]` out of
bounds is the `none` panic. -/
def assignRun : Nat → AssignStep → Option Formula
  | 0, _ => none
  | n + 1, .inner f lit =>
    match pushHist f.assign_history lit with
    | none => none
    | some h =>
      let f1 : Formula := { f with assignment := f.assignment.assign lit, assign_history := h }
      assignRun n (.entries f1 lit (f1.clause_indices.getD lit.id []))
  | _ + 1, .entries f _ [] => some f
  | n + 1, .entries f lit ((clause_idx, negated) :: rest) =>
    if lit.negated != negated then
      match f.clauses.get? clause_idx with
      | none => none
      | some (clause, _) =>
        let num_literals := clause.num_literals f.assignment
        if num_literals = 0 then
          some { f with unsolvable := true }
        else if num_literals = 1 then
          match (clause.alive f.assignment).head? with
          | none => none
          | some unit_lit =>
            match assignRun n (.inner f unit_lit) with
            | none => none
            | some f' => assignRun n (.entries f' lit rest)
        else
          assignRun n (.entries f lit rest)
    else
      match f.clauses.get? clause_idx with
      | none => none
      | some (clause, solvedFlag) =>
        if !solvedFlag then
          assignRun n
            (.entries { f with clauses := f.clauses.set clause_idx (clause, true),
                               remaining_clauses := f.remaining_clauses - 1 } lit rest)
        else
          assignRun n (.entries f lit rest)

/-- The `inner` entry point at a given fuel. -/
def innerF (n : Nat) (f : Formula) (lit : Literal) : Option Formula :=
  assignRun n (.inner f lit)

/-- `Formula::assign` (src/formula.rs lines 21-49): advance the cursor past the
decision literal, open a fresh undo group, and run the cascade. -/
def assignF (n : Nat) (f : Formula) (lit : Literal) : Option Formula :=
  innerF n
    { f with next_literal_id := lit.id + 1, assign_history := [] :: f.assign_history }
    lit

/-- The inner `for &(clause_idx, negated) in &self.clause_indices[lit.id]` loop of
`Formula::un_assign`: for entries where the undone literal was the satisfying one,
re-check whether the clause is still satisfied and otherwise unmark it, incrementing
`remaining_clauses`. -/
def undoEntries (f : Formula) (lit : Literal) : List (Nat × Bool) → Option Formula
  | [] => some f
  | (clause_idx, negated) :: rest =>
    if lit.negated == negated then
      match f.clauses.get? clause_idx with
      | none => none
      | some (clause, removed) =>
        if removed && !(clause.solved f.assignment) then
          undoEntries
            { f with clauses := f.clauses.set clause_idx (clause, false),
                     remaining_clauses := f.remaining_clauses + 1 } lit rest
        else
          undoEntries f lit rest
    else
      undoEntries f lit rest

/-- The `for lit in self.assign_history.pop().unwrap()` loop of `Formula::un_assign`:
clear each literal of the popped group, in assignment order, re-checking the clauses
it had satisfied. -/
def undoLits (f : Formula) : List Literal → Option Formula
  | [] => some f
  | l :: ls =>
    let f1 : Formula := { f with assignment := f.assignment.un_assign l }
    match undoEntries f1 l (f1.clause_indices.getD l.id []) with
    | none => none
    | some f2 => undoLits f2 ls

/-- `Formula::un_assign` (src/formula.rs lines 52-67): reset the cursor to `lit.id`,
clear `unsolvable`, pop the most recent undo group and undo its literals.  `none`
models the `pop().unwrap()` panic on an empty history. -/
def Formula.un_assign (f : Formula) (lit : Literal) : Option Formula :=
  match f.assign_history with
  | [] => none
  | g :: rest =>
    undoLits
      { f with next_literal_id := lit.id, unsolvable := false, assign_history := rest } g

/-- `Formula::next_un_assigned` (src/formula/solver.rs lines 32-42): scan variable
ids upward from the cursor for an unassigned one.  The Rust loop indexes the
assignment vector unconditionally, so running past its end is a panic (`none`). -/
def Formula.next_un_assigned (f : Formula) : Option Literal :=
  ((List.range' f.next_literal_id (f.assignment.vals.length - f.next_literal_id)).find?
      (fun id => (f.assignment.vals.getD id (some false)).isNone)).map
    (fun id => ⟨id, false⟩)

/-- `Formula::dpll` (src/formula/solver.rs lines 14-30): SAT when no clause remains,
failure when `unsolvable` is set, otherwise branch on the lowest unassigned
variable, positive polarity first, undoing each failed branch. -/
def dpllF : Nat → Formula → Option (Bool × Formula)
  | 0, _ => none
  | n + 1, f =>
    if f.remaining_clauses = 0 then some (true, f)
    else if f.unsolvable then some (false, f)
    else
      match f.next_un_assigned with
      | none => none
      | some next =>
        match assignF n f next with
        | none => none
        | some f1 =>
          match dpllF n f1 with
          | none => none
          | some (true, f2) => some (true, f2)
          | some (false, f2) =>
            match f2.un_assign next with
            | none => none
            | some f3 =>
              match assignF n f3 next.lnot with
              | none => none
              | some f4 =>
                match dpllF n f4 with
                | none => none
                | some (true, f5) => some (true, f5)
                | some (false, f5) =>
                  match f5.un_assign next.lnot with
                  | none => none
                  | some f6 => some (false, f6)

/-- `Formula::solve` (src/formula/solver.rs lines 5-11): run `dpll` and hand out the
assignment on success.  The outer `none` is fuel exhaustion or a panic; the inner
`Option` is the SAT/UNSAT answer. -/
def solveF (n : Nat) (f : Formula) : Option (Option Assignment) :=
  (dpllF n f).map (fun r => if r.1 then some r.2.assignment else none)

/-! ## The parser, src/formula/parser.rs

The text is modelled as its list of characters (`String.data`); the string
primitives the Rust code uses (`lines`, `split_whitespace`, `trim_end`,
`str::split` on the pattern `" 0"`, `FromStr` for the integer types) are embedded
as structural recursions over that list so that concrete runs compute. -/

/-- Split on a single character, keeping empty pieces (`n` separators give `n + 1`
pieces), as Rust's `str::split(char)` does. -/
def splitOnChar (sep : Char) : List Char → List (List Char)
  | [] => [[]]
  | x :: xs =>
    if x = sep then [] :: splitOnChar sep xs
    else
      match splitOnChar sep xs with
      | [] => [[x]]
      | h :: t => (x :: h) :: t

/-- Rust `str::split(" 0")`: split on the exact two-character pattern, matching
non-overlapping occurrences left to right. -/
def splitSpaceZero : List Char → List (List Char)
  | [] => [[]]
  | ' ' :: '0' :: rest => [] :: splitSpaceZero rest
  | x :: rest =>
    match splitSpaceZero rest with
    | [] => [[x]]
    | h :: t => (x :: h) :: t

/-- Split on every character satisfying the predicate, keeping empty pieces. -/
def splitPred (p : Char → Bool) : List Char → List (List Char)
  | [] => [[]]
  | x :: xs =>
    if p x then [] :: splitPred p xs
    else
      match splitPred p xs with
      | [] => [[x]]
      | h :: t => (x :: h) :: t

/-- Rust `str::split_whitespace`: whitespace-separated tokens, empties dropped
(the inputs under study are ASCII, where Lean's `Char.isWhitespace` and Rust's
`char::is_whitespace` agree). -/
def splitWs (s : List Char) : List (List Char) :=
  (splitPred Char.isWhitespace s).filter (fun t => t ≠ [])

/-- Rust `str::trim_end`: drop trailing whitespace. -/
def trimEnd (s : List Char) : List Char :=
  (s.reverse.dropWhile Char.isWhitespace).reverse

/-- Join lines back with the newline separator; applied to the lines following the
problem line this reconstructs exactly the unconsumed remainder of the input text
(`buf.position()` in the Rust code sits just past the problem line's newline). -/
def joinNl : List (List Char) → List Char
  | [] => []
  | [l] => l
  | l :: ls => l ++ '\n' :: joinNl ls

/-- The numeric value of a digit string. -/
def digitsVal (s : List Char) : Nat :=
  s.foldl (fun n c => n * 10 + (c.toNat - 48)) 0

/-- Rust `usize::from_str` as used on the problem-line fields: an optional leading
`+` followed by one or more digits (the model ignores the 64-bit overflow bound,
which no claim touches). -/
def parseNat (s : List Char) : Option Nat :=
  match s with
  | '+' :: rest => if rest ≠ [] ∧ rest.all Char.isDigit then some (digitsVal rest) else none
  | _ => if s ≠ [] ∧ s.all Char.isDigit then some (digitsVal s) else none

/-- Rust `isize::from_str` as used on clause tokens: an optional sign followed by
one or more digits. -/
def parseInt (s : List Char) : Option Int :=
  match s with
  | '-' :: rest =>
    if rest ≠ [] ∧ rest.all Char.isDigit then some (-(digitsVal rest : Int)) else none
  | '+' :: rest =>
    if rest ≠ [] ∧ rest.all Char.isDigit then some ((digitsVal rest : Int)) else none
  | _ => if s ≠ [] ∧ s.all Char.isDigit then some ((digitsVal s : Int)) else none

/-- Rust `BufRead::lines`: the pieces between newlines, without a trailing empty
piece (so the empty text has no lines).  Unlike Rust this keeps a `'\r'` before a
newline in its line; on the inputs under study every consumer either ignores
trailing whitespace or never sees one, so the behaviour agrees. -/
def rustLines (s : List Char) : List (List Char) :=
  let ps := splitOnChar '\n' s
  if ps.getLast? = some [] then ps.dropLast else ps

/-- The `lines().find(|l| !l.starts_with('c'))` step of `parse_dimacs`: skip comment
lines and return the problem line together with the remaining lines. -/
def findProblemLine : List (List Char) → Option (List Char × List (List Char))
  | [] => none
  | l :: ls =>
    match l with
    | 'c' :: _ => findProblemLine ls
    | _ => some (l, ls)

/-- The inner token loop of `parse_dimacs`'s clause loop: parse each token, convert
it with `Literal::from_var` (`none` is the `|0| - 1` underflow panic), discard the
whole clause on a complementary pair (`ok none`; the remaining tokens of the clause
are skipped by `continue 'outer`), otherwise append the literal. -/
def buildClause : List (List Char) → Clause → Option (Except String (Option Clause))
  | [], c => some (.ok (some c))
  | v :: vs, c =>
    match parseInt v with
    | none => some (.error ("Illegal variable '" ++ String.mk v ++ "'"))
    | some n =>
      match Literal.from_var n with
      | none => none
      | some lit =>
        if c.lits.contains lit.lnot then some (.ok none)
        else buildClause vs ⟨c.lits ++ [lit]⟩

/-- The `for lit in &clause.0 { formula.clause_indices[lit.id].push(...) }` loop:
append `(clause_idx, lit.negated)` to the variable's reverse-index bucket; an id
at or beyond `num_vars` is an out-of-bounds panic (`none`). -/
def pushEntries (indices : List (List (Nat × Bool))) (clause_idx : Nat) :
    List Literal → Option (List (List (Nat × Bool)))
  | [] => some indices
  | l :: ls =>
    if l.id < indices.length then
      pushEntries (indices.set l.id ((indices.getD l.id []) ++ [(clause_idx, l.negated)]))
        clause_idx ls
    else none

/-- The `'outer` clause loop of `parse_dimacs` (src/formula/parser.rs lines 48-66).
`clause_idx` is the `enumerate` counter over the raw clause strings, so it counts
discarded tautologies too; a discard decrements `remaining_clauses` and adds
nothing else. -/
def clauseLoop : List (List Char) → Nat → Formula → Option (Except String Formula)
  | [], _, f => some (.ok f)
  | piece :: ps, clause_idx, f =>
    match buildClause (splitWs piece) ⟨[]⟩ with
    | none => none
    | some (.error e) => some (.error e)
    | some (.ok none) =>
      clauseLoop ps (clause_idx + 1) { f with remaining_clauses := f.remaining_clauses - 1 }
    | some (.ok (some c)) =>
      match pushEntries f.clause_indices clause_idx c.lits with
      | none => none
      | some ind =>
        clauseLoop ps (clause_idx + 1)
          { f with clause_indices := ind, clauses := f.clauses ++ [(c, false)] }

/-- `Formula::parse_dimacs` up to (and including) the clause-terminator count check,
i.e. everything except the final `simplify` call: find the problem line, validate
its four fields, build the formula from the pieces of the remaining text split on
the two-character string `" 0"`, and compare the piece count with `num_clauses`. -/
def parse_build (input : String) : Option (Except String Formula) :=
  match findProblemLine (rustLines input.data) with
  | none => some (.error "Missing problem line")
  | some (problem_line, restLines) =>
    let params := splitWs problem_line
    if params.length ≠ 4 then some (.error "Wrong number of parameters in problem line")
    else if params.getD 0 [] ≠ ['p'] then some (.error "Invalid problem line")
    else if params.getD 1 [] ≠ ['c', 'n', 'f'] then
      some (.error "Only cnf-formatted inputs are currently allowed")
    else
      match parseNat (params.getD 2 []) with
      | none => some (.error "Third problem line parameter invalid")
      | some num_vars =>
        match parseNat (params.getD 3 []) with
        | none => some (.error "Fourth problem line parameter invalid")
        | some num_clauses =>
          let f0 : Formula :=
            { clauses := [], assignment := ⟨List.replicate num_vars none⟩,
              clause_indices := List.replicate num_vars [], assign_history := [],
              remaining_clauses := num_clauses, unsolvable := false, next_literal_id := 0 }
          let pieces := splitSpaceZero (trimEnd (joinNl restLines))
          match clauseLoop (pieces.take num_clauses) 0 f0 with
          | none => none
          | some (.error e) => some (.error e)
          | some (.ok f) =>
            match pieces.drop num_clauses with
            | [] => some (.error "Not enough clauses")
            | [] :: _ => some (.ok f)
            | _ => some (.error "Too many clauses")

/-- The `for i in 0..self.clauses.len()` loop of `Formula::simplify`: assign the
literal of every syntactic unit clause.  `i` is the position, `k` the number of
positions still to visit (the clause count never changes during the loop). -/
def simpGo (fuel : Nat) (f : Formula) : Nat → Nat → Option Formula
  | _, 0 => some f
  | i, k + 1 =>
    match (f.clauses.getD i (⟨[]⟩, false)).1.get_unit_literal with
    | some l =>
      match assignF fuel f l with
      | none => none
      | some f' => simpGo fuel f' (i + 1) k
    | none => simpGo fuel f (i + 1) k

/-- `Formula::simplify` (src/formula/parser.rs lines 76-84): unit propagation on the
syntactic unit clauses. -/
def simplifyF (fuel : Nat) (f : Formula) : Option Formula :=
  simpGo fuel f 0 f.clauses.length

/-- `Formula::parse_dimacs` (src/formula/parser.rs lines 8-73): `parse_build`
followed by `simplify` on success. -/
def parse_dimacs (fuel : Nat) (input : String) : Option (Except String Formula) :=
  match parse_build input with
  | none => none
  | some (.error e) => some (.error e)
  | some (.ok f) => (simplifyF fuel f).map Except.ok

/-! ## Semantic notions used by the claims -/

/-- A clause literal is true under a total valuation of the variables. -/
def litTrue (bs : List Bool) (l : Literal) : Bool :=
  bs.getD l.id false == !l.negated

/-- Every retained clause has a true literal under the valuation. -/
def clausesSat (bs : List Bool) (cs : List (Clause × Bool)) : Bool :=
  cs.all (fun cb => cb.1.lits.any (litTrue bs))

/-- The number of retained clauses whose satisfied flag is clear. -/
def countFalse (cs : List (Clause × Bool)) : Nat :=
  (cs.filter (fun cb => !cb.2)).length

/-! ## General helper lemmas -/

lemma solveF_eq_none (n : Nat) (f : Formula) (h : dpllF n f = none) : solveF n f = none := by
  simp [solveF, h]

lemma dpllF_succ_of_assign_none (m : Nat) (f : Formula) (next : Literal)
    (h0 : ¬ f.remaining_clauses = 0) (h1 : f.unsolvable = false)
    (h2 : f.next_un_assigned = some next) (h3 : assignF m f next = none) :
    dpllF (m + 1) f = none := by
  unfold dpllF
  rw [if_neg h0, h1, if_neg (by simp), h2]
  show (match assignF m f next with
        | none => none
        | some f1 => _) = none
  rw [h3]

/-! ## Claim C3: termination of the solving engine

On `p cnf 2 2 / -1 2 0 / -2 1 0` the first decision `assign(1)` enters a unit
cascade that re-derives the already-satisfied literals `2` and `1` forever: the
live-literal count treats satisfied literals as live, so each of the two clauses
keeps presenting the other's satisfied literal as a unit. -/

/-- The formula `parse_dimacs` produces for `p cnf 2 2 / -1 2 0 / -2 1 0`. -/
def cascadeStartState : Formula :=
  { clauses := [(⟨[⟨0, true⟩, ⟨1, false⟩]⟩, false), (⟨[⟨1, true⟩, ⟨0, false⟩]⟩, false)],
    assignment := ⟨[none, none]⟩,
    clause_indices := [[(0, true), (1, false)], [(0, false), (1, true)]],
    assign_history := [], remaining_clauses := 2, unsolvable := false,
    next_literal_id := 0 }

/-- The state, up to the undo history, in which the unit-propagation cascade of
`assign(1)` on `cascadeStartState` loops: both variables assigned true, the first
clause marked satisfied, and the two clauses forever re-proposing each other's
satisfied literal as a unit. -/
def cascadeLoopState (hist : List (List Literal)) : Formula :=
  { clauses := [(⟨[⟨0, true⟩, ⟨1, false⟩]⟩, true), (⟨[⟨1, true⟩, ⟨0, false⟩]⟩, false)],
    assignment := ⟨[some false, some false]⟩,
    clause_indices := [[(0, true), (1, false)], [(0, false), (1, true)]],
    assign_history := hist,
    remaining_clauses := 1, unsolvable := false, next_literal_id := 1 }

/-- All five recurring configurations of the cascade on `cascadeLoopState` run out
of any amount of fuel: the cascade never terminates. -/
lemma cascadeLoop_none : ∀ n hist,
    assignRun n (.inner (cascadeLoopState hist) ⟨0, false⟩) = none ∧
    assignRun n (.entries (cascadeLoopState hist) ⟨0, false⟩ [(0, true), (1, false)]) = none ∧
    assignRun n (.inner (cascadeLoopState hist) ⟨1, false⟩) = none ∧
    assignRun n (.entries (cascadeLoopState hist) ⟨1, false⟩ [(0, false), (1, true)]) = none ∧
    assignRun n (.entries (cascadeLoopState hist) ⟨1, false⟩ [(1, true)]) = none := by
  intro n
  induction n with
  | zero => exact fun hist => ⟨rfl, rfl, rfl, rfl, rfl⟩
  | succ m ih =>
    intro hist
    refine ⟨?_, ?_, ?_, ?_, ?_⟩
    · cases hist with
      | nil => rfl
      | cons g rest => exact (ih ((g ++ [⟨0, false⟩]) :: rest)).2.1
    · have h := (ih hist).2.2.1
      show (match assignRun m (.inner (cascadeLoopState hist) ⟨1, false⟩) with
            | none => none
            | some f' => assignRun m (.entries f' ⟨0, false⟩ [(1, false)])) = none
      rw [h]
    · cases hist with
      | nil => rfl
      | cons g rest => exact (ih ((g ++ [⟨1, false⟩]) :: rest)).2.2.2.1
    · exact (ih hist).2.2.2.2
    · have h := (ih hist).1
      show (match assignRun m (.inner (cascadeLoopState hist) ⟨0, false⟩) with
            | none => none
            | some f' => assignRun m (.entries f' ⟨1, false⟩ [])) = none
      rw [h]

/-- The first decision's `assign` call on the parsed formula reaches the loop after
four steps and therefore exhausts any amount of fuel. -/
lemma cascade_transient : ∀ n, assignF n cascadeStartState ⟨0, false⟩ = none := by
  intro n
  match n with
  | 0 => rfl
  | 1 => rfl
  | 2 => rfl
  | 3 => rfl
  | m + 4 =>
    have h := (cascadeLoop_none m [[⟨0, false⟩, ⟨1, false⟩]]).2.2.2.2
    show (match assignRun m
            (.entries (cascadeLoopState [[⟨0, false⟩, ⟨1, false⟩]]) ⟨1, false⟩ [(1, true)]) with
          | none => none
          | some f' => assignRun (m + 2) (.entries f' ⟨0, false⟩ [(1, false)])) = none
    rw [h]

/-- C3: the claim states that the solving engine always terminates and in
particular that the unit-propagation cascade inside one `assign` call cannot
recurse forever.  The code violates this: on the well-formed input
`p cnf 2 2 / -1 2 0 / -2 1 0` (which the parser accepts, with the search's first
decision being variable 1 positive), the cascade inside the very first `assign`
call recurses forever — for every fuel bound both that `assign` call and the whole
`solve` run fail to complete. -/
theorem assign_cascade_diverges :
    parse_dimacs 1 "p cnf 2 2\n-1 2 0\n-2 1 0" = some (.ok cascadeStartState) ∧
    cascadeStartState.next_un_assigned = some ⟨0, false⟩ ∧
    (∀ n, assignF n cascadeStartState ⟨0, false⟩ = none) ∧
    (∀ n, solveF n cascadeStartState = none) := by
  refine ⟨rfl, rfl, cascade_transient, ?_⟩
  intro n
  match n with
  | 0 => rfl
  | m + 1 =>
    exact solveF_eq_none _ _
      (dpllF_succ_of_assign_none m _ ⟨0, false⟩ (by decide) rfl rfl (cascade_transient m))

/-! ## Claim C2: completeness

`p cnf 2 4 / -1 2 0 / -2 1 0 / 1 2 0 / -1 -2 0` has no satisfying assignment of
its two variables, yet `solve` never reports unsatisfiable on it: the first
decision's unit cascade loops exactly as on `cascadeStartState`, the two extra
clauses sitting unreached behind the cascading reverse-index entries. -/

/-- The formula `parse_dimacs` produces for the unsatisfiable input
`p cnf 2 4 / -1 2 0 / -2 1 0 / 1 2 0 / -1 -2 0`. -/
def unsatStartState : Formula :=
  { clauses := [(⟨[⟨0, true⟩, ⟨1, false⟩]⟩, false), (⟨[⟨1, true⟩, ⟨0, false⟩]⟩, false),
                (⟨[⟨0, false⟩, ⟨1, false⟩]⟩, false), (⟨[⟨0, true⟩, ⟨1, true⟩]⟩, false)],
    assignment := ⟨[none, none]⟩,
    clause_indices := [[(0, true), (1, false), (2, false), (3, true)],
                       [(0, false), (1, true), (2, false), (3, true)]],
    assign_history := [], remaining_clauses := 4, unsolvable := false,
    next_literal_id := 0 }

/-- The looping configuration of the cascade on `unsatStartState`: both variables
assigned true, the first clause marked satisfied, clauses one and two re-proposing
each other's satisfied literal as a unit forever. -/
def unsatLoopState (hist : List (List Literal)) : Formula :=
  { clauses := [(⟨[⟨0, true⟩, ⟨1, false⟩]⟩, true), (⟨[⟨1, true⟩, ⟨0, false⟩]⟩, false),
                (⟨[⟨0, false⟩, ⟨1, false⟩]⟩, false), (⟨[⟨0, true⟩, ⟨1, true⟩]⟩, false)],
    assignment := ⟨[some false, some false]⟩,
    clause_indices := [[(0, true), (1, false), (2, false), (3, true)],
                       [(0, false), (1, true), (2, false), (3, true)]],
    assign_history := hist,
    remaining_clauses := 3, unsolvable := false, next_literal_id := 1 }

/-- The five recurring configurations of the cascade on `unsatLoopState` run out of
any amount of fuel. -/
lemma unsatLoop_none : ∀ n hist,
    assignRun n (.inner (unsatLoopState hist) ⟨0, false⟩) = none ∧
    assignRun n (.entries (unsatLoopState hist) ⟨0, false⟩
      [(0, true), (1, false), (2, false), (3, true)]) = none ∧
    assignRun n (.inner (unsatLoopState hist) ⟨1, false⟩) = none ∧
    assignRun n (.entries (unsatLoopState hist) ⟨1, false⟩
      [(0, false), (1, true), (2, false), (3, true)]) = none ∧
    assignRun n (.entries (unsatLoopState hist) ⟨1, false⟩
      [(1, true), (2, false), (3, true)]) = none := by
  intro n
  induction n with
  | zero => exact fun hist => ⟨rfl, rfl, rfl, rfl, rfl⟩
  | succ m ih =>
    intro hist
    refine ⟨?_, ?_, ?_, ?_, ?_⟩
    · cases hist with
      | nil => rfl
      | cons g rest => exact (ih ((g ++ [⟨0, false⟩]) :: rest)).2.1
    · have h := (ih hist).2.2.1
      show (match assignRun m (.inner (unsatLoopState hist) ⟨1, false⟩) with
            | none => none
            | some f' =>
                assignRun m (.entries f' ⟨0, false⟩ [(1, false), (2, false), (3, true)])) = none
      rw [h]
    · cases hist with
      | nil => rfl
      | cons g rest => exact (ih ((g ++ [⟨1, false⟩]) :: rest)).2.2.2.1
    · exact (ih hist).2.2.2.2
    · have h := (ih hist).1
      show (match assignRun m (.inner (unsatLoopState hist) ⟨0, false⟩) with
            | none => none
            | some f' => assignRun m (.entries f' ⟨1, false⟩ [(2, false), (3, true)])) = none
      rw [h]

/-- The first decision's `assign` call on `unsatStartState` reaches the loop after
four steps. -/
lemma unsat_transient : ∀ n, assignF n unsatStartState ⟨0, false⟩ = none := by
  intro n
  match n with
  | 0 => rfl
  | 1 => rfl
  | 2 => rfl
  | 3 => rfl
  | m + 4 =>
    have h := (unsatLoop_none m [[⟨0, false⟩, ⟨1, false⟩]]).2.2.2.2
    show (match assignRun m
            (.entries (unsatLoopState [[⟨0, false⟩, ⟨1, false⟩]]) ⟨1, false⟩
              [(1, true), (2, false), (3, true)]) with
          | none => none
          | some f' =>
              assignRun (m + 2) (.entries f' ⟨0, false⟩ [(1, false), (2, false), (3, true)])) = none
    rw [h]

/-- C2: the claim states that on every well-formed formula with no satisfying
assignment `solve` returns the unsatisfiable signal `None`.  The code violates
this: `p cnf 2 4 / -1 2 0 / -2 1 0 / 1 2 0 / -1 -2 0` parses to a formula none of
whose four variable valuations satisfies it, yet for every fuel bound `solve`
fails to complete — it diverges in the first decision's unit cascade instead of
returning the unsatisfiable signal (it indeed never returns `Some`, but it never
returns at all). -/
theorem solve_unsat_diverges :
    parse_dimacs 1 "p cnf 2 4\n-1 2 0\n-2 1 0\n1 2 0\n-1 -2 0" = some (.ok unsatStartState) ∧
    (∀ b0 b1 : Bool, clausesSat [b0, b1] unsatStartState.clauses = false) ∧
    (∀ n, solveF n unsatStartState = none) := by
  refine ⟨rfl, by decide, ?_⟩
  intro n
  match n with
  | 0 => rfl
  | m + 1 =>
    exact solveF_eq_none _ _
      (dpllF_succ_of_assign_none m _ ⟨0, false⟩ (by decide) rfl rfl (unsat_transient m))

/-! ## Claim C4: idempotent restore -/

/-- C4: the claim states that for every reachable state and decision literal on an
unassigned variable, `assign(lit); un_assign(lit)` restores `assignment`,
`remaining_clauses` and the contradiction flag exactly.  The code violates this.
On `p cnf 3 3 / 1 3 0 / -2 1 0 / 2 3 0` the search's first decision (variable 1
positive) yields the reachable state `f1`; the second decision assigns variable 2
positive, whose cascade re-derives the already-assigned literal `1` from the
clause `-2 1` (live-literal counting treats the satisfied literal `1` as the one
remaining literal) and records it again in the new undo group.  Undoing that
decision then clears variable 1 as well and unmarks all three clauses, leaving
`assignment` and `remaining_clauses` different from their pre-`assign` values. -/
theorem assign_unassign_not_restored :
    ∃ f0 f1 f2 f3,
      parse_dimacs 1 "p cnf 3 3\n1 3 0\n-2 1 0\n2 3 0" = some (.ok f0) ∧
      f0.next_un_assigned = some ⟨0, false⟩ ∧
      assignF 9 f0 ⟨0, false⟩ = some f1 ∧
      f1.next_un_assigned = some ⟨1, false⟩ ∧
      f1.assignment.vals.getD 1 (some false) = none ∧
      assignF 9 f1 ⟨1, false⟩ = some f2 ∧
      f2.un_assign ⟨1, false⟩ = some f3 ∧
      f3.unsolvable = f1.unsolvable ∧
      ¬ f3.assignment = f1.assignment ∧
      ¬ f3.remaining_clauses = f1.remaining_clauses := by
  refine ⟨
    { clauses := [(⟨[⟨0, false⟩, ⟨2, false⟩]⟩, false), (⟨[⟨1, true⟩, ⟨0, false⟩]⟩, false),
                  (⟨[⟨1, false⟩, ⟨2, false⟩]⟩, false)],
      assignment := ⟨[none, none, none]⟩,
      clause_indices := [[(0, false), (1, false)], [(1, true), (2, false)], [(0, false), (2, false)]],
      assign_history := [], remaining_clauses := 3, unsolvable := false, next_literal_id := 0 },
    { clauses := [(⟨[⟨0, false⟩, ⟨2, false⟩]⟩, true), (⟨[⟨1, true⟩, ⟨0, false⟩]⟩, true),
                  (⟨[⟨1, false⟩, ⟨2, false⟩]⟩, false)],
      assignment := ⟨[some false, none, none]⟩,
      clause_indices := [[(0, false), (1, false)], [(1, true), (2, false)], [(0, false), (2, false)]],
      assign_history := [[⟨0, false⟩]], remaining_clauses := 1, unsolvable := false,
      next_literal_id := 1 },
    { clauses := [(⟨[⟨0, false⟩, ⟨2, false⟩]⟩, true), (⟨[⟨1, true⟩, ⟨0, false⟩]⟩, true),
                  (⟨[⟨1, false⟩, ⟨2, false⟩]⟩, true)],
      assignment := ⟨[some false, some false, none]⟩,
      clause_indices := [[(0, false), (1, false)], [(1, true), (2, false)], [(0, false), (2, false)]],
      assign_history := [[⟨1, false⟩, ⟨0, false⟩], [⟨0, false⟩]], remaining_clauses := 0,
      unsolvable := false, next_literal_id := 2 },
    { clauses := [(⟨[⟨0, false⟩, ⟨2, false⟩]⟩, false), (⟨[⟨1, true⟩, ⟨0, false⟩]⟩, false),
                  (⟨[⟨1, false⟩, ⟨2, false⟩]⟩, false)],
      assignment := ⟨[none, none, none]⟩,
      clause_indices := [[(0, false), (1, false)], [(1, true), (2, false)], [(0, false), (2, false)]],
      assign_history := [[⟨0, false⟩]], remaining_clauses := 3, unsolvable := false,
      next_literal_id := 1 },
    rfl, rfl, rfl, rfl, rfl, rfl, rfl, rfl, by decide, by decide⟩

/-! ## Claim C5: the cursor invariant -/

lemma dpllF_succ_of_next_none (m : Nat) (f : Formula)
    (h0 : ¬ f.remaining_clauses = 0) (h1 : f.unsolvable = false)
    (h2 : f.next_un_assigned = none) :
    dpllF (m + 1) f = none := by
  unfold dpllF
  rw [if_neg h0, h1, if_neg (by simp), h2]

/-- C5: the claim states that whenever the search cursor is consulted every
variable id strictly below it is assigned, and that `next_un_assigned` therefore
never scans past the end of the assignment array — including for states produced
by the parser's `simplify` pass.  The code violates this: on
`p cnf 3 2 / 3 0 / 1 2 0`, `simplify` assigns the unit clause's variable 3 and
advances the cursor to 3 while variables 1 and 2 are still unassigned.  The first
`dpll` call then consults `next_un_assigned`, which scans from index 3 past the
end of the three-slot assignment array and panics, so `solve` completes for no
fuel bound. -/
theorem cursor_invariant_violated :
    ∃ f, parse_dimacs 3 "p cnf 3 2\n3 0\n1 2 0" = some (.ok f) ∧
      f.next_literal_id = 3 ∧
      f.assignment.vals.getD 0 (some false) = none ∧
      f.assignment.vals.getD 1 (some false) = none ∧
      f.remaining_clauses = 1 ∧
      f.next_un_assigned = none ∧
      (∀ n, solveF n f = none) := by
  refine ⟨
    { clauses := [(⟨[⟨2, false⟩]⟩, true), (⟨[⟨0, false⟩, ⟨1, false⟩]⟩, false)],
      assignment := ⟨[none, none, some false]⟩,
      clause_indices := [[(1, false)], [(1, false)], [(0, false)]],
      assign_history := [[⟨2, false⟩]], remaining_clauses := 1, unsolvable := false,
      next_literal_id := 3 },
    rfl, rfl, rfl, rfl, rfl, rfl, ?_⟩
  intro n
  match n with
  | 0 => rfl
  | m + 1 => exact solveF_eq_none _ _ (dpllF_succ_of_next_none m _ (by decide) rfl rfl)

/-! ## Claim C6: tautology elimination -/

/-- C6: the claim states that a tautological raw clause is discarded entirely and
that afterwards the reverse-index entries of every retained clause still point at
that clause's actual position in the clause vector.  The code violates the second
part: the reverse index records the raw `enumerate` position, which counts
discarded clauses.  On `p cnf 1 2 / 1 -1 0 / 1 0` the tautology is discarded
(not stored, not counted), but the retained clause `1` is stored at position 0
while its only reverse-index entry names position 1; `simplify`'s `assign` on that
unit clause then indexes `clauses[1]` out of bounds and panics, so `parse_dimacs`
completes for no fuel bound. -/
theorem tautology_discard_misaligns_index :
    ∃ f, parse_build "p cnf 1 2\n1 -1 0\n1 0" = some (.ok f) ∧
      f.clauses = [(⟨[⟨0, false⟩]⟩, false)] ∧
      f.remaining_clauses = 1 ∧
      f.clause_indices = [[(1, false)]] ∧
      (∀ n, parse_dimacs n "p cnf 1 2\n1 -1 0\n1 0" = none) := by
  refine ⟨
    { clauses := [(⟨[⟨0, false⟩]⟩, false)],
      assignment := ⟨[none]⟩, clause_indices := [[(1, false)]],
      assign_history := [], remaining_clauses := 1, unsolvable := false,
      next_literal_id := 0 },
    rfl, rfl, rfl, rfl, ?_⟩
  intro n
  match n with
  | 0 => rfl
  | 1 => rfl
  | _ + 2 => rfl

/-! ## Claim C7: the zero token inside a clause -/

/-- C7: the claim states that a clause-body zero not recognised as a terminator
(or any non-numeric token) yields a descriptive `Err`, never a panic, and that
`Literal::from_var` is never reached with 0.  The code violates this: in
`p cnf 1 1 / 0 1 0` the leading `0` is not preceded by a space, so the `" 0"`
split does not treat it as a terminator; it parses as the integer 0, reaches
`Literal::from_var`, and `|0| - 1` underflows — a panic (`none`, for every fuel),
not an `Err`. -/
theorem zero_token_panics :
    parseInt ['0'] = some 0 ∧
    Literal.from_var 0 = none ∧
    (∀ n, parse_dimacs n "p cnf 1 1\n0 1 0" = none) :=
  ⟨rfl, rfl, fun _ => rfl⟩

/-! ## Claim C8: the clause-count check -/

/-- C8: the claim states that the terminator count check works regardless of which
whitespace separates a terminator from the preceding literal.  The code splits
clauses on the exact two-character string `" 0"`, so it does hold for the
space-separated cases (exactly one terminator parses; a missing terminator is
"Not enough clauses"; an extra one is "Too many clauses"), but a newline-separated
terminator is not recognised: `p cnf 1 1 / 1 <newline> 0` has exactly one
terminator token yet the `0` is treated as a clause literal, reaching
`Literal::from_var(0)` and panicking for every fuel instead of parsing. -/
theorem clause_terminator_whitespace_dependent :
    (∀ n, parse_dimacs n "p cnf 1 1\n1\n0" = none) ∧
    parse_dimacs 3 "p cnf 1 1\n1 0" =
      some (.ok
        { clauses := [(⟨[⟨0, false⟩]⟩, true)],
          assignment := ⟨[some false]⟩, clause_indices := [[(0, false)]],
          assign_history := [[⟨0, false⟩]], remaining_clauses := 0, unsolvable := false,
          next_literal_id := 1 }) ∧
    parse_dimacs 1 "p cnf 1 2\n1 0" = some (.error "Not enough clauses") ∧
    parse_dimacs 1 "p cnf 1 1\n1 0 1 0" = some (.error "Too many clauses") :=
  ⟨fun _ => rfl, rfl, rfl, rfl⟩

/-! ## Claim C9: the complete-assignment output contract -/

/-- C9: the claim states that every `Some` returned by `solve` is a complete
assignment, one polarity per variable, including the immediate-success case of a
declared-empty clause set.  The code violates this: on `p cnf 2 0` the search
succeeds immediately and returns the untouched assignment, whose two slots are
both still unassigned (`none`) — not a complete assignment (and the program's own
rendering of an `Assignment` unwraps each slot, which panics on such output). -/
theorem solve_returns_incomplete_assignment :
    ∃ f a, parse_dimacs 1 "p cnf 2 0" = some (.ok f) ∧
      f.assignment.vals.length = 2 ∧
      solveF 1 f = some (some a) ∧
      a.vals = [none, none] ∧
      (a.vals.all Option.isSome) = false := by
  refine ⟨
    { clauses := [], assignment := ⟨[none, none]⟩, clause_indices := [[], []],
      assign_history := [], remaining_clauses := 0, unsolvable := false,
      next_literal_id := 0 },
    ⟨[none, none]⟩, rfl, rfl, rfl, rfl, rfl⟩

/-- The formula a pending `AssignStep` is operating on. -/
def AssignStep.state : AssignStep → Formula
  | .inner f _ => f
  | .entries f _ _ => f

lemma countFalse_cons (cb : Clause × Bool) (cs : List (Clause × Bool)) :
    countFalse (cb :: cs) = (if cb.2 then 0 else 1) + countFalse cs := by
  by_cases h : cb.2 <;> simp [countFalse, List.filter_cons, h] <;> omega

lemma countFalse_set_true (cs : List (Clause × Bool)) (ci : Nat) (c : Clause)
    (h : cs.get? ci = some (c, false)) :
    countFalse (cs.set ci (c, true)) + 1 = countFalse cs := by
  induction cs generalizing ci with
  | nil => exact absurd h (by simp)
  | cons hd tl ih =>
    cases ci with
    | zero =>
      have hhd : hd = (c, false) := Option.some.inj h
      subst hhd
      simp [List.set, countFalse_cons]
      omega
    | succ k =>
      have := ih k h
      simp [List.set, countFalse_cons]
      omega

lemma countFalse_set_false (cs : List (Clause × Bool)) (ci : Nat) (c : Clause)
    (h : cs.get? ci = some (c, true)) :
    countFalse (cs.set ci (c, false)) = countFalse cs + 1 := by
  induction cs generalizing ci with
  | nil => exact absurd h (by simp)
  | cons hd tl ih =>
    cases ci with
    | zero =>
      have hhd : hd = (c, true) := Option.some.inj h
      subst hhd
      simp [List.set, countFalse_cons]
      omega
    | succ k =>
      have := ih k h
      simp [List.set, countFalse_cons]
      omega


/-- `assign`'s cascade preserves the remaining-count invariant: whenever a step
completes, `remaining_clauses` still counts the unmarked retained clauses. -/
lemma assignRun_countFalse : ∀ n s f', assignRun n s = some f' →
    s.state.remaining_clauses = countFalse s.state.clauses →
    f'.remaining_clauses = countFalse f'.clauses := by
  intro n
  induction n with
  | zero => intro s f' h; exact absurd h (by simp [assignRun])
  | succ m ih =>
    intro s f' h hInv
    cases s with
    | inner f lit =>
      simp only [assignRun] at h
      cases hp : pushHist f.assign_history lit with
      | none => rw [hp] at h; exact absurd h (by simp)
      | some h1 =>
        rw [hp] at h
        exact ih _ _ h hInv
    | entries f lit es =>
      cases es with
      | nil =>
        simp only [assignRun] at h
        cases h
        exact hInv
      | cons e rest =>
        obtain ⟨ci, neg⟩ := e
        simp only [assignRun] at h
        split at h
        · split at h
          · exact absurd h (by simp)
          · rename_i clause flag hg
            split at h
            · cases h
              exact hInv
            · split at h
              · split at h
                · exact absurd h (by simp)
                · split at h
                  · exact absurd h (by simp)
                  · rename_i u hu f2 hr
                    exact ih _ _ h (ih _ _ hr hInv)
              · exact ih _ _ h hInv
        · split at h
          · exact absurd h (by simp)
          · rename_i clause flag hg
            split at h
            · refine ih _ _ h ?_
              rename_i hflag
              have hfl : flag = false := by
                cases flag
                · rfl
                · simp at hflag
              subst hfl
              have hc := countFalse_set_true f.clauses ci clause hg
              simp only [AssignStep.state] at hInv ⊢
              omega
            · exact ih _ _ h hInv


lemma undoEntries_countFalse : ∀ es f lit f', undoEntries f lit es = some f' →
    f.remaining_clauses = countFalse f.clauses →
    f'.remaining_clauses = countFalse f'.clauses := by
  intro es
  induction es with
  | nil =>
    intro f lit f' h hInv
    cases h
    exact hInv
  | cons e rest ih =>
    intro f lit f' h hInv
    obtain ⟨ci, neg⟩ := e
    simp only [undoEntries] at h
    split at h
    · split at h
      · exact absurd h (by simp)
      · rename_i clause removed hg
        split at h
        · rename_i hrem
          refine ih _ _ _ h ?_
          have hrt : removed = true := by
            cases removed
            · simp at hrem
            · rfl
          subst hrt
          have hc := countFalse_set_false f.clauses ci clause hg
          dsimp only
          omega
        · exact ih _ _ _ h hInv
    · exact ih _ _ _ h hInv

lemma undoLits_countFalse : ∀ ls f f', undoLits f ls = some f' →
    f.remaining_clauses = countFalse f.clauses →
    f'.remaining_clauses = countFalse f'.clauses := by
  intro ls
  induction ls with
  | nil =>
    intro f f' h hInv
    cases h
    exact hInv
  | cons l rest ih =>
    intro f f' h hInv
    simp only [undoLits] at h
    cases hu : undoEntries { f with assignment := f.assignment.un_assign l } l
        (f.clause_indices.getD l.id []) with
    | none => rw [hu] at h; exact absurd h (by simp)
    | some f2 =>
      rw [hu] at h
      exact ih _ _ h (undoEntries_countFalse _ _ _ _ hu hInv)

lemma un_assign_countFalse (f : Formula) (l : Literal) (f' : Formula)
    (h : f.un_assign l = some f')
    (hInv : f.remaining_clauses = countFalse f.clauses) :
    f'.remaining_clauses = countFalse f'.clauses := by
  unfold Formula.un_assign at h
  split at h
  · exact absurd h (by simp)
  · exact undoLits_countFalse _ _ _ h hInv


lemma countFalse_append_false (cs : List (Clause × Bool)) (c : Clause) :
    countFalse (cs ++ [(c, false)]) = countFalse cs + 1 := by
  simp [countFalse, List.filter_append]

lemma clauseLoop_countFalse : ∀ ps idx f f' k, clauseLoop ps idx f = some (.ok f') →
    f.remaining_clauses = countFalse f.clauses + k → ps.length ≤ k →
    f'.remaining_clauses = countFalse f'.clauses + (k - ps.length) := by
  intro ps
  induction ps with
  | nil =>
    intro idx f f' k h hrem hlen
    cases h
    simpa using hrem
  | cons piece rest ih =>
    intro idx f f' k h hrem hlen
    simp only [clauseLoop] at h
    split at h
    · exact absurd h (by simp)
    · exact absurd h (by simp)
    · have hk : 1 ≤ k := le_trans (by simp) hlen
      have := ih (idx + 1) _ f' (k - 1) h (by dsimp only; omega)
        (by simp at hlen; omega)
      simp only [List.length_cons]
      omega
    · split at h
      · exact absurd h (by simp)
      · rename_i c hpc ind hind
        have hk : 1 ≤ k := le_trans (by simp) hlen
        have := ih (idx + 1) _ f' (k - 1) h
          (by dsimp only; rw [countFalse_append_false]; omega)
          (by simp at hlen; omega)
        simp only [List.length_cons]
        omega

lemma parse_build_countFalse (s : String) (f : Formula)
    (h : parse_build s = some (.ok f)) :
    f.remaining_clauses = countFalse f.clauses := by
  unfold parse_build at h
  split at h
  · exact absurd h (by simp)
  · dsimp only at h
    repeat' split at h
    all_goals try (injection h; done)
    all_goals try (injection h with h2; injection h2; done)
    rename_i xa pl rl hfind hp4 hp1 hp2 xb nv hnv xc nc hnc xd fmid hloop xe tail hdrop
    injection h with h2
    injection h2 with h3
    subst h3
    have hlen : (List.take nc (splitSpaceZero (trimEnd (joinNl rl)))).length ≤ nc := by
      simp [List.length_take]
    have hmain := clauseLoop_countFalse _ 0 _ _ nc hloop (by simp [countFalse]) hlen
    have hlt : nc < (splitSpaceZero (trimEnd (joinNl rl))).length := by
      by_contra hle
      rw [List.drop_eq_nil_of_le (Nat.not_lt.mp hle)] at hdrop
      exact absurd hdrop (by simp)
    have hlen2 : (List.take nc (splitSpaceZero (trimEnd (joinNl rl)))).length = nc := by
      simp [List.length_take]
      omega
    rw [hlen2] at hmain
    simpa using hmain


/-- The states reachable through construction (`parse_dimacs` up to its
terminator-count check), completed `assign` calls, and completed `un_assign`
calls.  `simplify`'s unit assignments are `assign` steps, so every formula
`parse_dimacs` returns is reachable. -/
inductive Reachable : Formula → Prop where
  | built : ∀ (s : String) (f : Formula), parse_build s = some (.ok f) → Reachable f
  | assign_step : ∀ (f : Formula) (n : Nat) (l : Literal) (f' : Formula),
      Reachable f → assignF n f l = some f' → Reachable f'
  | unassign_step : ∀ (f : Formula) (l : Literal) (f' : Formula),
      Reachable f → f.un_assign l = some f' → Reachable f'

lemma simpGo_reachable : ∀ k i fuel f f', simpGo fuel f i k = some f' →
    Reachable f → Reachable f' := by
  intro k
  induction k with
  | zero =>
    intro i fuel f f' h hr
    cases h
    exact hr
  | succ m ih =>
    intro i fuel f f' h hr
    simp only [simpGo] at h
    split at h
    · rename_i l hl
      cases ha : assignF fuel f l with
      | none => rw [ha] at h; exact absurd h (by simp)
      | some f2 =>
        rw [ha] at h
        exact ih _ _ _ _ h (.assign_step f fuel l f2 hr ha)
    · exact ih _ _ _ _ h hr

lemma reachable_of_parse (fuel : Nat) (s : String) (f : Formula)
    (h : parse_dimacs fuel s = some (.ok f)) : Reachable f := by
  unfold parse_dimacs at h
  split at h
  · exact absurd h (by simp)
  · injection h with h2
    injection h2
  · rename_i f0 hbuild
    cases hs : simplifyF fuel f0 with
    | none => rw [hs] at h; exact absurd h (by simp)
    | some f1 =>
      rw [hs] at h
      injection h with h2
      injection h2 with h3
      subst h3
      exact simpGo_reachable _ _ _ _ _ hs (.built s f0 hbuild)


/-- C10: in every state reachable through construction, `assign` and `un_assign`,
`remaining_clauses` equals the number of retained clauses whose satisfied flag is
false.  In particular each completed `assign` call decrements it exactly by the
number of clauses it newly marks (the flag guard marks a clause at most once), and
each completed `un_assign` call increments it exactly by the number of clauses it
unmarks. -/
theorem remaining_count_invariant : ∀ f, Reachable f → f.remaining_clauses = countFalse f.clauses := by
  intro f h
  induction h with
  | built s f hp => exact parse_build_countFalse s f hp
  | assign_step f n l f' hr hstep ih => exact assignRun_countFalse n _ f' hstep ih
  | unassign_step f l f' hr hstep ih => exact un_assign_countFalse f l f' hstep ih

/-- The formula built (before `simplify`) from `p cnf 1 1 / 1 0`. -/
def builtExample : Formula :=
  { clauses := [(⟨[⟨0, false⟩]⟩, false)], assignment := ⟨[none]⟩,
    clause_indices := [[(0, false)]], assign_history := [],
    remaining_clauses := 1, unsolvable := false, next_literal_id := 0 }

theorem remaining_count_invariant_witness :
    builtExample.remaining_clauses = countFalse builtExample.clauses :=
  remaining_count_invariant builtExample (.built "p cnf 1 1\n1 0" builtExample rfl)

end SpicySat
